import Mathlib

/-!
Verification of the colossus-blender VIGA core against its specification.

The development shallowly embeds the Python sources:
  * `src/src/archive/colossus_blender/vision_utils.py` (response parsing),
  * `src/docs/archive/memory.py` (context memory),
  * `src/src/colossus_blender/viga/agent.py` (the VIGA loop),
  * `src/src/archive/colossus_blender/viga/modern_models.py` (model gateway),
  * `src/src/colossus_blender/orchestrator.py` (evaluator pipeline).

Python strings are modelled as `List Char`; Python `str.find`, `str.rfind`,
`str.split`, `str.strip` and slicing are given faithful counterparts below.
-/

namespace ColossusBlender

/-- Python whitespace characters, as stripped by `str.strip()`. -/
def isPySpace (c : Char) : Bool :=
  c = ' ' || c = '\t' || c = '\n' || c = '\r' || c = '\x0b' || c = '\x0c'

/-- Python `s.strip()`: remove leading and trailing whitespace. -/
def pyStrip (s : List Char) : List Char :=
  ((s.dropWhile isPySpace).reverse.dropWhile isPySpace).reverse

/-- Python `s.find(sub)`: index of the first occurrence of `sub` in `s`,
`none` when absent (Python returns `-1`). -/
def findIdx (sub : List Char) : List Char → Option Nat
  | [] => if sub.isPrefixOf ([] : List Char) then some 0 else none
  | c :: s => if sub.isPrefixOf (c :: s) then some 0 else (findIdx sub s).map (· + 1)

/-- Python `sub in s`. -/
def containsSub (sub s : List Char) : Bool :=
  (findIdx sub s).isSome

/-- Python `s.find(sub, start)`: first occurrence at or after `start`. -/
def findFrom (sub s : List Char) (start : Nat) : Option Nat :=
  (findIdx sub (s.drop start)).map (· + start)

/-- Python `s[a:b]` for `0 ≤ a ≤ b`. -/
def pySlice (s : List Char) (a b : Nat) : List Char :=
  (s.drop a).take (b - a)

/-- Characterization of `findIdx`: it returns the least index where `sub`
is a prefix of the remaining suffix. -/
theorem findIdx_eq_some_iff (sub : List Char) (s : List Char) (i : Nat) :
    findIdx sub s = some i ↔
      (sub <+: s.drop i ∧ ∀ j, j < i → ¬ sub <+: s.drop j) := by
  induction s generalizing i with
  | nil =>
    by_cases h : sub.isPrefixOf ([] : List Char)
    · have hp : sub <+: ([] : List Char) := List.isPrefixOf_iff_prefix.mp h
      simp only [findIdx, if_pos h, List.drop_nil, Option.some.injEq]
      constructor
      · rintro rfl
        exact ⟨hp, fun j hj => absurd hj (by omega)⟩
      · rintro ⟨_, hmin⟩
        rcases Nat.eq_zero_or_pos i with rfl | hi
        · rfl
        · exact absurd hp (hmin 0 hi)
    · have hp : ¬ sub <+: ([] : List Char) := fun hc => h (List.isPrefixOf_iff_prefix.mpr hc)
      simp only [findIdx, if_neg h, List.drop_nil]
      constructor
      · rintro h'; cases h'
      · rintro ⟨hpre, _⟩; exact absurd hpre hp
  | cons c s ih =>
    by_cases h : sub.isPrefixOf (c :: s)
    · have hp : sub <+: (c :: s) := List.isPrefixOf_iff_prefix.mp h
      simp only [findIdx, if_pos h, Option.some.injEq]
      constructor
      · rintro rfl
        exact ⟨by simpa using hp, fun j hj => absurd hj (by omega)⟩
      · rintro ⟨_, hmin⟩
        rcases Nat.eq_zero_or_pos i with rfl | hi
        · rfl
        · exact absurd (by simpa using hp) (hmin 0 hi)
    · have hp : ¬ sub <+: (c :: s) := fun hc => h (List.isPrefixOf_iff_prefix.mpr hc)
      simp only [findIdx, if_neg h, Option.map_eq_some']
      constructor
      · rintro ⟨a, ha, rfl⟩
        obtain ⟨hpre, hmin⟩ := (ih a).mp ha
        refine ⟨by simpa using hpre, ?_⟩
        intro j hj
        cases j with
        | zero => simpa using hp
        | succ j' => simpa using hmin j' (by omega)
      · rintro ⟨hpre, hmin⟩
        cases i with
        | zero => exact absurd (by simpa using hpre) hp
        | succ i' =>
          refine ⟨i', (ih i').mpr ⟨by simpa using hpre, ?_⟩, rfl⟩
          intro j hj
          simpa using hmin (j + 1) (by omega)

theorem findIdx_eq_none_iff (sub : List Char) (s : List Char) :
    findIdx sub s = none ↔ ∀ j, ¬ sub <+: s.drop j := by
  induction s with
  | nil =>
    by_cases h : sub.isPrefixOf ([] : List Char)
    · have hp : sub <+: ([] : List Char) := List.isPrefixOf_iff_prefix.mp h
      simp only [findIdx, if_pos h, List.drop_nil]
      constructor
      · intro h'; cases h'
      · intro hall; exact absurd hp (hall 0)
    · have hp : ¬ sub <+: ([] : List Char) := fun hc => h (List.isPrefixOf_iff_prefix.mpr hc)
      simp only [findIdx, if_neg h, List.drop_nil]
      exact ⟨fun _ _ => hp, fun _ => trivial⟩
  | cons c s ih =>
    by_cases h : sub.isPrefixOf (c :: s)
    · have hp : sub <+: (c :: s) := List.isPrefixOf_iff_prefix.mp h
      simp only [findIdx, if_pos h]
      constructor
      · intro h'; cases h'
      · intro hall
        exact absurd (by simpa using hp) (hall 0)
    · have hp : ¬ sub <+: (c :: s) := fun hc => h (List.isPrefixOf_iff_prefix.mpr hc)
      simp only [findIdx, if_neg h, Option.map_eq_none']
      rw [ih]
      constructor
      · intro hall j
        cases j with
        | zero => simpa using hp
        | succ j' => simpa using hall j'
      · intro hall j
        simpa using hall (j + 1)

theorem prefix_head_eq {sub l : List Char} {c : Char} (hc : sub.head? = some c)
    (h : sub <+: l) : l.head? = some c := by
  obtain ⟨t, rfl⟩ := h
  cases sub with
  | nil => cases hc
  | cons a u => simpa using hc

theorem singleton_prefix_iff (c : Char) (l : List Char) :
    [c] <+: l ↔ l.head? = some c := by
  cases l with
  | nil => simp
  | cons a t =>
    constructor
    · rintro ⟨u, hu⟩
      injection hu with h1 _
      simp [h1]
    · intro h
      simp only [List.head?_cons, Option.some.injEq] at h
      exact ⟨t, by simp [h]⟩

theorem head?_append_of_ne_nil {l q : List Char} (h : l ≠ []) :
    (l ++ q).head? = l.head? := by
  cases l with
  | nil => exact absurd rfl h
  | cons a t => rfl

/-- No occurrence of a needle starting with character `c` can begin inside a
block that does not contain `c`. -/
theorem not_prefix_drop_of_notMem {needle : List Char} {c : Char}
    (hc : needle.head? = some c) {l : List Char} (hl : c ∉ l)
    {q : List Char} {j : Nat} (hj : j < l.length) :
    ¬ needle <+: (l ++ q).drop j := by
  intro hpre
  have hdrop : (l ++ q).drop j = l.drop j ++ q := by
    rw [List.drop_append_eq_append_drop]
    have hz : j - l.length = 0 := by omega
    rw [hz, List.drop_zero]
  rw [hdrop] at hpre
  have hne : l.drop j ≠ [] := by
    intro h0
    have := congrArg List.length h0
    simp only [List.length_drop, List.length_nil] at this
    omega
  obtain ⟨d, rest, hcons⟩ := List.exists_cons_of_ne_nil hne
  rw [hcons] at hpre
  have hhead : ((d :: rest) ++ q).head? = some c := prefix_head_eq hc hpre
  simp only [List.cons_append, List.head?_cons, Option.some.injEq] at hhead
  subst hhead
  have hdm : d ∈ l.drop j := by rw [hcons]; exact List.mem_cons_self _ _
  exact hl ((List.drop_suffix j l).subset hdm)

/-- If `p` has no character `c`, the first occurrence of a `c`-headed needle in
`p ++ q` is exactly at the boundary, provided the needle starts `q`. -/
theorem findIdx_append_of_notMem {needle : List Char} {c : Char}
    (hc : needle.head? = some c) {p q : List Char} (hp : c ∉ p)
    (hpre : needle <+: q) :
    findIdx needle (p ++ q) = some p.length := by
  rw [findIdx_eq_some_iff]
  refine ⟨?_, ?_⟩
  · rw [List.drop_left]
    exact hpre
  · intro j hj
    exact not_prefix_drop_of_notMem hc hp hj

theorem findIdx_eq_none_of_notMem {needle : List Char} {c : Char}
    (hc : needle.head? = some c) {s : List Char} (hs : c ∉ s) :
    findIdx needle s = none := by
  rw [findIdx_eq_none_iff]
  intro j hpre
  by_cases hj : j < s.length
  · exact not_prefix_drop_of_notMem hc hs (q := []) hj (by simpa using hpre)
  · have hnil : s.drop j = [] := List.drop_eq_nil_of_le (by omega)
    rw [hnil] at hpre
    have he : needle = [] := List.prefix_nil.mp hpre
    rw [he] at hc
    cases hc

theorem containsSub_eq_true_iff (sub s : List Char) :
    containsSub sub s = true ↔ ∃ j, sub <+: s.drop j := by
  unfold containsSub
  rw [Option.isSome_iff_exists]
  constructor
  · rintro ⟨i, hi⟩
    exact ⟨i, ((findIdx_eq_some_iff sub s i).mp hi).1⟩
  · rintro ⟨j, hj⟩
    cases h : findIdx sub s with
    | some i => exact ⟨i, rfl⟩
    | none => exact absurd hj ((findIdx_eq_none_iff sub s).mp h j)

theorem containsSub_singleton_iff (c : Char) (s : List Char) :
    containsSub [c] s = true ↔ c ∈ s := by
  rw [containsSub_eq_true_iff]
  constructor
  · rintro ⟨j, hj⟩
    rw [singleton_prefix_iff] at hj
    have hne : s.drop j ≠ [] := by intro h0; rw [h0] at hj; cases hj
    obtain ⟨d, rest, hcons⟩ := List.exists_cons_of_ne_nil hne
    rw [hcons] at hj
    simp only [List.head?_cons, Option.some.injEq] at hj
    subst hj
    exact (List.drop_suffix j s).subset (by rw [hcons]; exact List.mem_cons_self _ _)
  · intro hm
    obtain ⟨n, hn⟩ := List.get_of_mem hm
    refine ⟨n.1, ?_⟩
    rw [singleton_prefix_iff, ← List.get?_zero, List.get?_drop]
    simpa [List.get?_eq_get n.2] using congrArg some hn

theorem containsSub_eq_false_of_notMem {needle : List Char} {c : Char}
    (hc : needle.head? = some c) {s : List Char} (hs : c ∉ s) :
    containsSub needle s = false := by
  unfold containsSub
  rw [findIdx_eq_none_of_notMem hc hs]
  rfl

/-- Dropping the text before a marker together with the marker itself. -/
theorem drop_after_marker (p m z : List Char) :
    (p ++ (m ++ z)).drop (p.length + m.length) = z := by
  rw [← List.append_assoc]
  have h : (p ++ m).length = p.length + m.length := by simp
  rw [← h, List.drop_left]

/-! ## Response parsing (`src/src/archive/colossus_blender/vision_utils.py`) -/

def pythonTag : List Char := ("```python").data

def fenceTok : List Char := ("```").data

def jsonTag : List Char := ("```json").data

def lbraceTok : List Char := ("\x7b").data

def rbraceTok : List Char := ("\x7d").data

/-- `extract_code_from_response` from `vision_utils.py`:

    if "```python" in response:
        start = response.find("```python") + len("```python")
        end = response.find("```", start)
        if end > start: return response[start:end].strip()
    elif "```" in response:
        start = response.find("```") + 3
        end = response.find("```", start)
        if end > start: return response[start:end].strip()
    return response.strip()
-/
def extract_code_from_response (response : List Char) : List Char :=
  match findIdx pythonTag response with
  | some i =>
      let start := i + pythonTag.length
      match findFrom fenceTok response start with
      | some e => if start < e then pyStrip (pySlice response start e) else pyStrip response
      | none => pyStrip response
  | none =>
      match findIdx fenceTok response with
      | some i =>
          let start := i + 3
          match findFrom fenceTok response start with
          | some e => if start < e then pyStrip (pySlice response start e) else pyStrip response
          | none => pyStrip response
      | none => pyStrip response

/-- Structural worker for `splitOnSub`; one unit of fuel is consumed per
separator occurrence, so `fuel = s.length` always suffices (each occurrence
consumes at least one character of a non-empty separator). -/
def splitOnSubAux (sep : List Char) : Nat → List Char → List (List Char)
  | 0, s => [s]
  | fuel + 1, s =>
    match findIdx sep s with
    | none => [s]
    | some i => s.take i :: splitOnSubAux sep fuel (s.drop (i + sep.length))

/-- Python `s.split(sep)` for a non-empty separator: non-overlapping matches,
scanned left to right.  (The empty-separator case raises in Python; here it
returns the whole string unsplit, and is never used with an empty separator.) -/
def splitOnSub (sep : List Char) (s : List Char) : List (List Char) :=
  if sep.isEmpty then [s] else splitOnSubAux sep s.length s

theorem splitOnSubAux_eq_none {sep s : List Char} (h : findIdx sep s = none)
    (f : Nat) : splitOnSubAux sep f s = [s] := by
  cases f <;> simp [splitOnSubAux, h]

theorem splitOnSubAux_eq_some {sep s : List Char} {i : Nat}
    (h : findIdx sep s = some i) (f : Nat) :
    splitOnSubAux sep (f + 1) s = s.take i :: splitOnSubAux sep f (s.drop (i + sep.length)) := by
  simp [splitOnSubAux, h]

theorem findIdx_some_bounds {sep s : List Char} {i : Nat} (hsep : sep ≠ [])
    (h : findIdx sep s = some i) : 0 < sep.length ∧ i + sep.length ≤ s.length := by
  have hpre : sep <+: s.drop i := ((findIdx_eq_some_iff sep s i).mp h).1
  have h1 : sep.length ≤ s.length - i := by
    have := hpre.length_le
    simpa using this
  have h2 : 0 < sep.length := by
    cases sep with
    | nil => exact absurd rfl hsep
    | cons a l => simp
  exact ⟨h2, by omega⟩

theorem splitOnSubAux_fuel (sep : List Char) (hsep : sep ≠ []) :
    ∀ f s, s.length ≤ f → splitOnSubAux sep f s = splitOnSubAux sep s.length s := by
  intro f
  induction f using Nat.strong_induction_on with
  | _ f ih =>
    intro s hs
    cases f with
    | zero =>
      have hz : s = [] := List.eq_nil_of_length_eq_zero (by omega)
      subst hz
      rfl
    | succ f' =>
      cases hf : findIdx sep s with
      | none => rw [splitOnSubAux_eq_none hf, splitOnSubAux_eq_none hf]
      | some i =>
        obtain ⟨hpos, hle⟩ := findIdx_some_bounds hsep hf
        obtain ⟨m, hm⟩ : ∃ m, s.length = m + 1 := ⟨s.length - 1, by omega⟩
        rw [splitOnSubAux_eq_some hf f', hm, splitOnSubAux_eq_some hf m]
        have hd : (s.drop (i + sep.length)).length = s.length - (i + sep.length) :=
          List.length_drop _ _
        rw [ih f' (by omega) _ (by omega), ih m (by omega) _ (by omega)]

theorem splitOnSub_eq_none {sep s : List Char} (h : findIdx sep s = none) :
    splitOnSub sep s = [s] := by
  unfold splitOnSub
  by_cases hsep : sep.isEmpty
  · rw [if_pos hsep]
  · rw [if_neg hsep, splitOnSubAux_eq_none h]

theorem splitOnSub_eq_some {sep s : List Char} {i : Nat} (hsep : sep.isEmpty = false)
    (h : findIdx sep s = some i) :
    splitOnSub sep s = s.take i :: splitOnSub sep (s.drop (i + sep.length)) := by
  have hne : sep ≠ [] := by
    intro h0
    rw [h0] at hsep
    cases hsep
  obtain ⟨hpos, hle⟩ := findIdx_some_bounds hne h
  obtain ⟨m, hm⟩ : ∃ m, s.length = m + 1 := ⟨s.length - 1, by omega⟩
  unfold splitOnSub
  rw [if_neg (by simp [hsep]), if_neg (by simp [hsep]), hm, splitOnSubAux_eq_some h m]
  have hd : (s.drop (i + sep.length)).length = s.length - (i + sep.length) :=
    List.length_drop _ _
  rw [splitOnSubAux_fuel sep hne m _ (by omega)]

/-- Python `s.rfind(sub)`: index of the last occurrence, `none` when absent. -/
def rfindSub (sub : List Char) (s : List Char) : Option Nat :=
  (findIdx sub.reverse s.reverse).map (fun i => s.length - sub.length - i)

/-- Candidate selection of `extract_json_from_content` from `vision_utils.py`:

    if "```json" in content:
        json_content = content.split("```json")[1].split("```")[0].strip()
    elif "{" in content and "}" in content:
        start = content.find("{")
        end = content.rfind("}") + 1
        json_content = content[start:end]
    else:
        json_content = content.strip()

The branch guards guarantee that the `getD` defaults below are never used. -/
def extract_json_candidate (content : List Char) : List Char :=
  if containsSub jsonTag content then
    pyStrip ((splitOnSub fenceTok ((splitOnSub jsonTag content).getD 1 [])).getD 0 [])
  else if containsSub lbraceTok content && containsSub rbraceTok content then
    let start := (findIdx lbraceTok content).getD 0
    let stop := (rfindSub rbraceTok content).getD 0 + 1
    pySlice content start stop
  else
    pyStrip content

/-- `extract_json_from_content` runs `json.loads` on the chosen candidate; the
JSON parser is the external collaborator `parse` (returning `none` exactly when
Python's `json.loads` would raise). -/
def extract_json_from_content {J : Type} (parse : List Char → Option J)
    (content : List Char) : Option J :=
  parse (extract_json_candidate content)

theorem extract_code_py_closed {s : List Char} {i e : Nat}
    (h1 : findIdx pythonTag s = some i)
    (h2 : findFrom fenceTok s (i + pythonTag.length) = some e)
    (h3 : i + pythonTag.length < e) :
    extract_code_from_response s = pyStrip (pySlice s (i + pythonTag.length) e) := by
  unfold extract_code_from_response
  rw [h1]
  simp only [h2, h3, if_pos]

theorem extract_code_py_unclosed {s : List Char} {i : Nat}
    (h1 : findIdx pythonTag s = some i)
    (h2 : findFrom fenceTok s (i + pythonTag.length) = none) :
    extract_code_from_response s = pyStrip s := by
  unfold extract_code_from_response
  rw [h1]
  simp only [h2]

theorem extract_code_generic_closed {s : List Char} {i e : Nat}
    (h0 : findIdx pythonTag s = none)
    (h1 : findIdx fenceTok s = some i)
    (h2 : findFrom fenceTok s (i + 3) = some e)
    (h3 : i + 3 < e) :
    extract_code_from_response s = pyStrip (pySlice s (i + 3) e) := by
  unfold extract_code_from_response
  rw [h0, h1]
  simp only [h2, h3, if_pos]

theorem extract_code_generic_unclosed {s : List Char} {i : Nat}
    (h0 : findIdx pythonTag s = none)
    (h1 : findIdx fenceTok s = some i)
    (h2 : findFrom fenceTok s (i + 3) = none) :
    extract_code_from_response s = pyStrip s := by
  unfold extract_code_from_response
  rw [h0, h1]
  simp only [h2]

theorem extract_code_no_fence {s : List Char}
    (h0 : findIdx pythonTag s = none)
    (h1 : findIdx fenceTok s = none) :
    extract_code_from_response s = pyStrip s := by
  unfold extract_code_from_response
  rw [h0, h1]

theorem containsSub_eq_false_iff (sub s : List Char) :
    containsSub sub s = false ↔ findIdx sub s = none := by
  unfold containsSub
  cases findIdx sub s <;> simp

/-- The first `python`-tagged block wins, whatever follows it. -/
theorem extract_code_first_python_block {p x r : List Char}
    (hp : ('`' : Char) ∉ p) (hx : ('`' : Char) ∉ x) (hxne : x ≠ []) :
    extract_code_from_response (p ++ pythonTag ++ x ++ fenceTok ++ r) = pyStrip x := by
  have hassoc : p ++ pythonTag ++ x ++ fenceTok ++ r
      = p ++ (pythonTag ++ (x ++ (fenceTok ++ r))) := by simp [List.append_assoc]
  rw [hassoc]
  set s := p ++ (pythonTag ++ (x ++ (fenceTok ++ r))) with hs
  have h1 : findIdx pythonTag s = some p.length :=
    findIdx_append_of_notMem (by decide) hp (List.prefix_append _ _)
  have hdrop : s.drop (p.length + pythonTag.length) = x ++ (fenceTok ++ r) :=
    drop_after_marker _ _ _
  have h2 : findIdx fenceTok (x ++ (fenceTok ++ r)) = some x.length :=
    findIdx_append_of_notMem (by decide) hx (List.prefix_append _ _)
  have h2' : findFrom fenceTok s (p.length + pythonTag.length)
      = some (x.length + (p.length + pythonTag.length)) := by
    unfold findFrom
    rw [hdrop, h2]
    rfl
  have h3 : p.length + pythonTag.length < x.length + (p.length + pythonTag.length) := by
    have := List.length_pos.mpr hxne
    omega
  rw [extract_code_py_closed h1 h2' h3]
  unfold pySlice
  rw [hdrop, Nat.add_sub_cancel, List.take_left]

/-- With no `python` tag anywhere, the first generic block wins. -/
theorem extract_code_first_generic_block {p x r : List Char}
    (hnp : containsSub pythonTag (p ++ fenceTok ++ x ++ fenceTok ++ r) = false)
    (hp : ('`' : Char) ∉ p) (hx : ('`' : Char) ∉ x) (hxne : x ≠ []) :
    extract_code_from_response (p ++ fenceTok ++ x ++ fenceTok ++ r) = pyStrip x := by
  have hassoc : p ++ fenceTok ++ x ++ fenceTok ++ r
      = p ++ (fenceTok ++ (x ++ (fenceTok ++ r))) := by simp [List.append_assoc]
  rw [hassoc] at hnp ⊢
  set s := p ++ (fenceTok ++ (x ++ (fenceTok ++ r))) with hs
  have h0 : findIdx pythonTag s = none := (containsSub_eq_false_iff _ _).mp hnp
  have h1 : findIdx fenceTok s = some p.length :=
    findIdx_append_of_notMem (by decide) hp (List.prefix_append _ _)
  have hdrop : s.drop (p.length + 3) = x ++ (fenceTok ++ r) := by
    have h3 : (3 : Nat) = fenceTok.length := by decide
    rw [h3]
    exact drop_after_marker _ _ _
  have h2 : findIdx fenceTok (x ++ (fenceTok ++ r)) = some x.length :=
    findIdx_append_of_notMem (by decide) hx (List.prefix_append _ _)
  have h2' : findFrom fenceTok s (p.length + 3) = some (x.length + (p.length + 3)) := by
    unfold findFrom
    rw [hdrop, h2]
    rfl
  have h3 : p.length + 3 < x.length + (p.length + 3) := by
    have := List.length_pos.mpr hxne
    omega
  rw [extract_code_generic_closed h0 h1 h2' h3]
  unfold pySlice
  rw [hdrop, Nat.add_sub_cancel, List.take_left]

/-- No fence at all: the whole input comes back, trimmed. -/
theorem extract_code_plain {s : List Char} (h : containsSub fenceTok s = false) :
    extract_code_from_response s = pyStrip s := by
  have h1 : findIdx fenceTok s = none := (containsSub_eq_false_iff _ _).mp h
  have hfence := (findIdx_eq_none_iff fenceTok s).mp h1
  have hpref : fenceTok <+: pythonTag := by decide
  have h0 : findIdx pythonTag s = none :=
    (findIdx_eq_none_iff _ _).mpr (fun j hpre => hfence j (hpref.trans hpre))
  exact extract_code_no_fence h0 h1

/-- A `python` tag with no closing fence after it falls through to the
whole trimmed input. -/
theorem extract_code_python_no_close {p x : List Char}
    (hp : ('`' : Char) ∉ p) (hx : ('`' : Char) ∉ x) :
    extract_code_from_response (p ++ pythonTag ++ x) = pyStrip (p ++ pythonTag ++ x) := by
  have hassoc : p ++ pythonTag ++ x = p ++ (pythonTag ++ x) := by simp [List.append_assoc]
  rw [hassoc]
  set s := p ++ (pythonTag ++ x) with hs
  have h1 : findIdx pythonTag s = some p.length :=
    findIdx_append_of_notMem (by decide) hp (List.prefix_append _ _)
  have hdrop : s.drop (p.length + pythonTag.length) = x := drop_after_marker _ _ _
  have h2 : findFrom fenceTok s (p.length + pythonTag.length) = none := by
    unfold findFrom
    rw [hdrop, findIdx_eq_none_of_notMem (by decide) hx]
    rfl
  exact extract_code_py_unclosed h1 h2

/-- A generic fence with no closing fence after it falls through to the
whole trimmed input. -/
theorem extract_code_generic_no_close {p x : List Char}
    (hnp : containsSub pythonTag (p ++ fenceTok ++ x) = false)
    (hp : ('`' : Char) ∉ p) (hx : ('`' : Char) ∉ x) :
    extract_code_from_response (p ++ fenceTok ++ x) = pyStrip (p ++ fenceTok ++ x) := by
  have hassoc : p ++ fenceTok ++ x = p ++ (fenceTok ++ x) := by simp [List.append_assoc]
  rw [hassoc] at hnp ⊢
  set s := p ++ (fenceTok ++ x) with hs
  have h0 : findIdx pythonTag s = none := (containsSub_eq_false_iff _ _).mp hnp
  have h1 : findIdx fenceTok s = some p.length :=
    findIdx_append_of_notMem (by decide) hp (List.prefix_append _ _)
  have hdrop : s.drop (p.length + 3) = x := by
    have h3 : (3 : Nat) = fenceTok.length := by decide
    rw [h3]
    exact drop_after_marker _ _ _
  have h2 : findFrom fenceTok s (p.length + 3) = none := by
    unfold findFrom
    rw [hdrop, findIdx_eq_none_of_notMem (by decide) hx]
    rfl
  exact extract_code_generic_unclosed h0 h1 h2

/-- C4: code extraction searches in order: (a) the content of the first
```python-tagged fenced block when one is present (whatever follows it — only
the first such block is ever returned, so an input with blocks `X` then `Y`
yields exactly `X`); else (b) the content of the first generic fenced block;
else (c) the trimmed whole input.  Stated via: the concrete two-block example,
the first-python-block law, the first-generic-block law, and the
no-fence fallthrough. -/
theorem extract_code_search_order_C4 :
    (extract_code_from_response (("```python\nX\n```\nmore\n```python\nY\n```").data)
      = ("X").data) ∧
    (∀ p x r : List Char, ('`' : Char) ∉ p → ('`' : Char) ∉ x → x ≠ [] →
      extract_code_from_response (p ++ pythonTag ++ x ++ fenceTok ++ r) = pyStrip x) ∧
    (∀ p x r : List Char,
      containsSub pythonTag (p ++ fenceTok ++ x ++ fenceTok ++ r) = false →
      ('`' : Char) ∉ p → ('`' : Char) ∉ x → x ≠ [] →
      extract_code_from_response (p ++ fenceTok ++ x ++ fenceTok ++ r) = pyStrip x) ∧
    (∀ s : List Char, containsSub fenceTok s = false →
      extract_code_from_response s = pyStrip s) :=
  ⟨by decide,
   fun _ _ _ hp hx hxne => extract_code_first_python_block hp hx hxne,
   fun _ _ _ hnp hp hx hxne => extract_code_first_generic_block hnp hp hx hxne,
   fun _ h => extract_code_plain h⟩

theorem extract_code_search_order_C4_witness :
    (('`' : Char) ∉ ("intro: ").data ∧ ('`' : Char) ∉ ("print(1)").data ∧
      ("print(1)").data ≠ []) ∧
    extract_code_from_response
        (("intro: ").data ++ pythonTag ++ ("print(1)").data ++ fenceTok ++ ("\ntrailing").data)
      = pyStrip (("print(1)").data) :=
  ⟨⟨by decide, by decide, by decide⟩,
   extract_code_search_order_C4.2.1 (("intro: ").data) (("print(1)").data)
     (("\ntrailing").data) (by decide) (by decide) (by decide)⟩

/-- C10: an input containing a fence opener (```python or ```) with no
subsequent closing fence does not fail and is not truncated: extraction falls
through to the entire trimmed input, fence marker included. -/
theorem extract_code_unclosed_fence_C10 :
    (∀ p x : List Char, ('`' : Char) ∉ p → ('`' : Char) ∉ x →
      extract_code_from_response (p ++ pythonTag ++ x) = pyStrip (p ++ pythonTag ++ x)) ∧
    (∀ p x : List Char, containsSub pythonTag (p ++ fenceTok ++ x) = false →
      ('`' : Char) ∉ p → ('`' : Char) ∉ x →
      extract_code_from_response (p ++ fenceTok ++ x) = pyStrip (p ++ fenceTok ++ x)) ∧
    (extract_code_from_response (("before\n```python\ncode without close").data)
      = ("before\n```python\ncode without close").data) :=
  ⟨fun _ _ hp hx => extract_code_python_no_close hp hx,
   fun _ _ hnp hp hx => extract_code_generic_no_close hnp hp hx,
   by decide⟩

theorem extract_code_unclosed_fence_C10_witness :
    (('`' : Char) ∉ ("before ").data ∧ ('`' : Char) ∉ (" unclosed").data) ∧
    extract_code_from_response (("before ").data ++ pythonTag ++ (" unclosed").data)
      = pyStrip (("before ").data ++ pythonTag ++ (" unclosed").data) :=
  ⟨⟨by decide, by decide⟩,
   extract_code_unclosed_fence_C10.1 (("before ").data) ((" unclosed").data)
     (by decide) (by decide)⟩

theorem extract_json_candidate_json_branch {content : List Char}
    (hc : containsSub jsonTag content = true) :
    extract_json_candidate content
      = pyStrip ((splitOnSub fenceTok ((splitOnSub jsonTag content).getD 1 [])).getD 0 []) := by
  unfold extract_json_candidate
  rw [if_pos hc]

theorem extract_json_candidate_brace_branch {content : List Char}
    (hc : containsSub jsonTag content = false)
    (hb : (containsSub lbraceTok content && containsSub rbraceTok content) = true) :
    extract_json_candidate content
      = pySlice content ((findIdx lbraceTok content).getD 0)
          ((rfindSub rbraceTok content).getD 0 + 1) := by
  unfold extract_json_candidate
  rw [if_neg (by simp [hc]), if_pos hb]

theorem extract_json_candidate_plain {content : List Char}
    (hc : containsSub jsonTag content = false)
    (hb : (containsSub lbraceTok content && containsSub rbraceTok content) = false) :
    extract_json_candidate content = pyStrip content := by
  unfold extract_json_candidate
  rw [if_neg (by simp [hc]), if_neg (by simp [hb])]

/-- The first ```json block's content is chosen, stripped. -/
theorem extract_json_first_block {p x r : List Char}
    (hp : ('`' : Char) ∉ p) (hx : ('`' : Char) ∉ x)
    (hnr : containsSub jsonTag (x ++ fenceTok ++ r) = false) :
    extract_json_candidate (p ++ jsonTag ++ x ++ fenceTok ++ r) = pyStrip x := by
  have hassoc : p ++ jsonTag ++ x ++ fenceTok ++ r
      = p ++ (jsonTag ++ (x ++ (fenceTok ++ r))) := by simp [List.append_assoc]
  have hassoc2 : x ++ fenceTok ++ r = x ++ (fenceTok ++ r) := by simp [List.append_assoc]
  rw [hassoc2] at hnr
  rw [hassoc]
  set s := p ++ (jsonTag ++ (x ++ (fenceTok ++ r))) with hs
  have h1 : findIdx jsonTag s = some p.length :=
    findIdx_append_of_notMem (by decide) hp (List.prefix_append _ _)
  have hc : containsSub jsonTag s = true := by
    unfold containsSub
    rw [h1]
    rfl
  rw [extract_json_candidate_json_branch hc]
  have hsplit1 : splitOnSub jsonTag s
      = s.take p.length :: splitOnSub jsonTag (s.drop (p.length + jsonTag.length)) :=
    splitOnSub_eq_some (by decide) h1
  have hdrop : s.drop (p.length + jsonTag.length) = x ++ (fenceTok ++ r) :=
    drop_after_marker _ _ _
  have hnone : findIdx jsonTag (x ++ (fenceTok ++ r)) = none :=
    (containsSub_eq_false_iff _ _).mp hnr
  have hinner : (splitOnSub jsonTag s).getD 1 [] = x ++ (fenceTok ++ r) := by
    rw [hsplit1, List.getD_cons_succ, hdrop, splitOnSub_eq_none hnone]
    rfl
  rw [hinner]
  have h2 : findIdx fenceTok (x ++ (fenceTok ++ r)) = some x.length :=
    findIdx_append_of_notMem (by decide) hx (List.prefix_append _ _)
  have houter : splitOnSub fenceTok (x ++ (fenceTok ++ r))
      = (x ++ (fenceTok ++ r)).take x.length
          :: splitOnSub fenceTok ((x ++ (fenceTok ++ r)).drop (x.length + fenceTok.length)) :=
    splitOnSub_eq_some (by decide) h2
  rw [houter, List.getD_cons_zero, List.take_left]

/-- With no ```json tag, the candidate spans from the first left brace to the
last right brace. -/
theorem extract_json_brace_span {p mid s : List Char}
    (hnt : containsSub jsonTag (p ++ mid ++ s) = false)
    (hp : ('\x7b' : Char) ∉ p) (hs : ('\x7d' : Char) ∉ s)
    (hh : mid.head? = some '\x7b') (hl : mid.getLast? = some '\x7d') :
    extract_json_candidate (p ++ mid ++ s) = mid := by
  have hassoc : p ++ mid ++ s = p ++ (mid ++ s) := by simp [List.append_assoc]
  rw [hassoc] at hnt ⊢
  set content := p ++ (mid ++ s) with hcontent
  have hmidne : mid ≠ [] := by
    intro h0
    rw [h0] at hh
    cases hh
  have hmidpos : 0 < mid.length := List.length_pos.mpr hmidne
  have hlb : lbraceTok = ['\x7b'] := by decide
  have hrb : rbraceTok = ['\x7d'] := by decide
  have hfind : findIdx lbraceTok content = some p.length := by
    rw [hlb]
    have hc1 : (['\x7b'] : List Char).head? = some '\x7b' := by decide
    refine findIdx_append_of_notMem hc1 hp ?_
    rw [singleton_prefix_iff, head?_append_of_ne_nil hmidne]
    exact hh
  have hrevne : mid.reverse ≠ [] := by simp [hmidne]
  have hrevhead : mid.reverse.head? = some '\x7d' := by
    rw [List.head?_reverse]
    exact hl
  have hrevassoc : content.reverse = s.reverse ++ (mid.reverse ++ p.reverse) := by
    simp [hcontent, List.reverse_append, List.append_assoc]
  have hfindrev : findIdx rbraceTok.reverse content.reverse = some s.length := by
    have hfr : findIdx rbraceTok (s.reverse ++ (mid.reverse ++ p.reverse))
        = some s.reverse.length := by
      rw [hrb]
      have hc2 : (['\x7d'] : List Char).head? = some '\x7d' := by decide
      refine findIdx_append_of_notMem hc2 (by simp [hs]) ?_
      rw [singleton_prefix_iff, head?_append_of_ne_nil hrevne]
      exact hrevhead
    have hrr : rbraceTok.reverse = rbraceTok := by decide
    rw [hrr, hrevassoc, hfr, List.length_reverse]
  have hrfind : rfindSub rbraceTok content = some (content.length - 1 - s.length) := by
    unfold rfindSub
    rw [hfindrev]
    rfl
  have hlen : content.length = p.length + mid.length + s.length := by
    simp [hcontent]
    omega
  have hb : (containsSub lbraceTok content && containsSub rbraceTok content) = true := by
    have hbl : containsSub lbraceTok content = true := by
      unfold containsSub
      rw [hfind]
      rfl
    have hmem : ('\x7d' : Char) ∈ content := by
      have h1 : containsSub rbraceTok content.reverse = true := by
        unfold containsSub
        have hrr : rbraceTok.reverse = rbraceTok := by decide
        rw [← hrr, hfindrev]
        rfl
      rw [hrb] at h1
      have := (containsSub_singleton_iff '\x7d' content.reverse).mp h1
      simpa using this
    have hbr : containsSub rbraceTok content = true := by
      rw [hrb]
      exact (containsSub_singleton_iff '\x7d' content).mpr hmem
    rw [hbl, hbr]
    rfl
  rw [extract_json_candidate_brace_branch hnt hb, hfind, hrfind]
  simp only [Option.getD_some]
  have harith : content.length - 1 - s.length + 1 = p.length + mid.length := by omega
  rw [harith]
  unfold pySlice
  rw [List.drop_left, Nat.add_sub_cancel_left, List.take_left]

/-- C5: structured-data extraction chooses its candidate in order: (a) the
first ```json-tagged fenced block, stripped; else (b) the span from the first
left brace to the last right brace (not brace-matched — on two independent
objects the outer span is taken, as in the concrete example); else (c) the
trimmed whole input; and a parse error occurs exactly when the chosen
candidate fails to parse (the parser is applied to exactly the candidate). -/
theorem extract_json_search_order_C5 :
    (∀ (J : Type) (parse : List Char → Option J) (content : List Char),
      extract_json_from_content parse content = parse (extract_json_candidate content)) ∧
    (∀ p x r : List Char, ('`' : Char) ∉ p → ('`' : Char) ∉ x →
      containsSub jsonTag (x ++ fenceTok ++ r) = false →
      extract_json_candidate (p ++ jsonTag ++ x ++ fenceTok ++ r) = pyStrip x) ∧
    (∀ p mid s : List Char, containsSub jsonTag (p ++ mid ++ s) = false →
      ('\x7b' : Char) ∉ p → ('\x7d' : Char) ∉ s →
      mid.head? = some '\x7b' → mid.getLast? = some '\x7d' →
      extract_json_candidate (p ++ mid ++ s) = mid) ∧
    (extract_json_candidate (("prefix \x7b\"a\":1\x7d \x7b\"b\":2\x7d suffix").data)
      = ("\x7b\"a\":1\x7d \x7b\"b\":2\x7d").data) ∧
    (∀ content : List Char, containsSub jsonTag content = false →
      (containsSub lbraceTok content && containsSub rbraceTok content) = false →
      extract_json_candidate content = pyStrip content) :=
  ⟨fun _ _ _ => rfl,
   fun _ _ _ hp hx hnr => extract_json_first_block hp hx hnr,
   fun _ _ _ hnt hp hs hh hl => extract_json_brace_span hnt hp hs hh hl,
   by decide,
   fun _ hc hb => extract_json_candidate_plain hc hb⟩

theorem extract_json_search_order_C5_witness :
    (('`' : Char) ∉ ("Sure: ").data ∧ ('`' : Char) ∉ (" \x7b\"k\": 1\x7d ").data ∧
      containsSub jsonTag ((" \x7b\"k\": 1\x7d ").data ++ fenceTok ++ (" done").data) = false) ∧
    extract_json_candidate
        (("Sure: ").data ++ jsonTag ++ (" \x7b\"k\": 1\x7d ").data ++ fenceTok ++ (" done").data)
      = pyStrip ((" \x7b\"k\": 1\x7d ").data) :=
  ⟨⟨by decide, by decide, by decide⟩,
   extract_json_search_order_C5.2.1 (("Sure: ").data) ((" \x7b\"k\": 1\x7d ").data)
     ((" done").data) (by decide) (by decide) (by decide)⟩

/-! ## Context memory (`src/docs/archive/memory.py`) -/

/-- `IterationContext` dataclass: per-iteration record. -/
structure IterationContext where
  iteration_id : Nat
  plan : Option (List Char) := none
  code : Option (List Char) := none
  code_diff : Option (List Char) := none
  execution_result : Option (List Char) := none
  visual_feedback : Option (List Char) := none
  rendered_image_path : Option (List Char) := none
deriving DecidableEq

/-- `VIGAMemory`: evolving context memory with a sliding window.
`static_context` is the task-level key/value mapping. -/
structure VIGAMemory where
  history : List IterationContext := []
  window_size : Int := 3
  static_context : List (List Char × List Char) := []
deriving DecidableEq

/-- Python `l[i:]` slicing (negative index counts from the end, clamped). -/
def pySliceFrom {α : Type} (l : List α) (i : Int) : List α :=
  if i < 0 then l.drop ((l.length : Int) + i).toNat else l.drop i.toNat

/-- `VIGAMemory.add_iteration`: `self.history.append(context)`. -/
def VIGAMemory.add_iteration (m : VIGAMemory) (ctx : IterationContext) : VIGAMemory :=
  { m with history := m.history ++ [ctx] }

/-- `VIGAMemory.get_context_window`: `self.history[-self.window_size:]`. -/
def VIGAMemory.get_context_window (m : VIGAMemory) : List IterationContext :=
  pySliceFrom m.history (-m.window_size)

/-- Python truthiness of `ctx.code` (`None` and `""` are falsy). -/
def pyTruthyCode (ctx : IterationContext) : Bool :=
  match ctx.code with
  | none => false
  | some c => !c.isEmpty

/-- Worker for `get_latest_code`: scan a (already reversed) record list and
return the first truthy code. -/
def latestCodeAux : List IterationContext → List Char
  | [] => []
  | ctx :: rest =>
    match ctx.code with
    | some c => if c.isEmpty then latestCodeAux rest else c
    | none => latestCodeAux rest

/-- `VIGAMemory.get_latest_code`: scan `reversed(self.history)`, return the
first truthy `ctx.code`, else `""`. -/
def VIGAMemory.get_latest_code (m : VIGAMemory) : List Char :=
  latestCodeAux m.history.reverse

theorem latestCodeAux_skip {l1 : List IterationContext}
    (h : ∀ c ∈ l1, pyTruthyCode c = false) (l2 : List IterationContext) :
    latestCodeAux (l1 ++ l2) = latestCodeAux l2 := by
  induction l1 with
  | nil => rfl
  | cons ctx rest ih =>
    have hctx : pyTruthyCode ctx = false := h ctx (List.mem_cons_self _ _)
    have hrest : ∀ c ∈ rest, pyTruthyCode c = false :=
      fun c hc => h c (List.mem_cons_of_mem _ hc)
    cases hc : ctx.code with
    | none =>
      simp only [List.cons_append, latestCodeAux, hc]
      exact ih hrest
    | some c =>
      unfold pyTruthyCode at hctx
      rw [hc] at hctx
      simp only [Bool.not_eq_false'] at hctx
      simp only [List.cons_append, latestCodeAux, hc, if_pos hctx]
      exact ih hrest

theorem latestCodeAux_hit {ctx : IterationContext} (h : pyTruthyCode ctx = true)
    (l : List IterationContext) :
    latestCodeAux (ctx :: l) = ctx.code.getD [] := by
  unfold pyTruthyCode at h
  cases hc : ctx.code with
  | none => rw [hc] at h; cases h
  | some c =>
    rw [hc] at h
    simp only [Bool.not_eq_true'] at h
    simp only [latestCodeAux, hc, Option.getD_some]
    rw [if_neg (by simp [h])]

/-- C6: for a memory whose window size is (as the data model requires) a
positive integer, the context window is the last `min(window_size, n)` records
in original insertion order, for every number `n` of appended records.
(The embedding is purely functional, so computing the window cannot mutate
the record history.) -/
theorem memory_window_C6 :
    ∀ m : VIGAMemory, 1 ≤ m.window_size →
      m.get_context_window = m.history.drop (m.history.length - m.window_size.toNat) ∧
      m.get_context_window.length = min m.window_size.toNat m.history.length := by
  intro m hw
  unfold VIGAMemory.get_context_window pySliceFrom
  have hneg : -m.window_size < 0 := by omega
  rw [if_pos hneg]
  have ht : ((m.history.length : Int) + -m.window_size).toNat
      = m.history.length - m.window_size.toNat := by omega
  rw [ht]
  refine ⟨rfl, ?_⟩
  rw [List.length_drop]
  omega

def ctxN (i : Nat) : IterationContext := { iteration_id := i }

def exWindowMem : VIGAMemory :=
  { history := [ctxN 0, ctxN 1, ctxN 2, ctxN 3, ctxN 4], window_size := 2 }

theorem memory_window_C6_witness :
    (1 ≤ exWindowMem.window_size) ∧
    (exWindowMem.get_context_window
        = exWindowMem.history.drop (exWindowMem.history.length - exWindowMem.window_size.toNat) ∧
      exWindowMem.get_context_window.length
        = min exWindowMem.window_size.toNat exWindowMem.history.length) :=
  ⟨by decide, memory_window_C6 exWindowMem (by decide)⟩

def memCodesExample : VIGAMemory :=
  { history := [ctxN 0, { iteration_id := 1, code := some (("a").data) }, ctxN 2,
                { iteration_id := 3, code := some (("b").data) }, ctxN 4] }

def memNoCodeExample : VIGAMemory := { history := [ctxN 0, ctxN 1] }

/-- C7: the latest-code lookup scans backward from the newest record, returns
the first non-empty code artifact (ignoring the window size entirely), and
returns the empty sentinel — never an error — when no record carries one;
with code artifacts `[None, "a", None, "b", None]` it returns `"b"`, and with
`[None, None]` it returns the empty sentinel. -/
theorem memory_latest_code_C7 :
    (∀ m : VIGAMemory, (∀ ctx ∈ m.history, pyTruthyCode ctx = false) →
      m.get_latest_code = []) ∧
    (∀ (m : VIGAMemory) (pre : List IterationContext) (ctx : IterationContext)
        (post : List IterationContext), m.history = pre ++ ctx :: post →
      pyTruthyCode ctx = true → (∀ c ∈ post, pyTruthyCode c = false) →
      m.get_latest_code = ctx.code.getD []) ∧
    (∀ (m : VIGAMemory) (k : Int),
      VIGAMemory.get_latest_code { m with window_size := k } = m.get_latest_code) ∧
    (memCodesExample.get_latest_code = ("b").data) ∧
    (memNoCodeExample.get_latest_code = []) := by
  refine ⟨?_, ?_, fun m k => rfl, by decide, by decide⟩
  · intro m hall
    unfold VIGAMemory.get_latest_code
    have hall' : ∀ ctx ∈ m.history.reverse, pyTruthyCode ctx = false := by
      intro ctx hctx
      exact hall ctx (List.mem_reverse.mp hctx)
    rw [← List.append_nil m.history.reverse, latestCodeAux_skip hall']
    rfl
  · intro m pre ctx post hdecomp htruthy hpost
    unfold VIGAMemory.get_latest_code
    rw [hdecomp]
    have hrev : (pre ++ ctx :: post).reverse = post.reverse ++ (ctx :: pre.reverse) := by
      simp [List.reverse_append]
    rw [hrev]
    have hpost' : ∀ c ∈ post.reverse, pyTruthyCode c = false := by
      intro c hc
      exact hpost c (List.mem_reverse.mp hc)
    rw [latestCodeAux_skip hpost', latestCodeAux_hit htruthy]

theorem memory_latest_code_C7_witness :
    (memCodesExample.history
        = [ctxN 0, { iteration_id := 1, code := some (("a").data) }, ctxN 2]
            ++ ({ iteration_id := 3, code := some (("b").data) } : IterationContext)
            :: [ctxN 4] ∧
      pyTruthyCode { iteration_id := 3, code := some (("b").data) } = true ∧
      (∀ c ∈ [ctxN 4], pyTruthyCode c = false)) ∧
    memCodesExample.get_latest_code
      = (({ iteration_id := 3, code := some (("b").data) } : IterationContext)).code.getD [] :=
  ⟨⟨by decide, by decide, by decide⟩,
   memory_latest_code_C7.2.1 memCodesExample
     [ctxN 0, { iteration_id := 1, code := some (("a").data) }, ctxN 2]
     { iteration_id := 3, code := some (("b").data) } [ctxN 4]
     (by decide) (by decide) (by decide)⟩

/-- C8 (amended): `add_iteration` appends the record at the end
unconditionally; no sequence-number validation is performed and no error can
be raised (the rest of the memory state is untouched). -/
theorem memory_append_C8 :
    ∀ (m : VIGAMemory) (ctx : IterationContext),
      (m.add_iteration ctx).history = m.history ++ [ctx] ∧
      (m.add_iteration ctx).window_size = m.window_size ∧
      (m.add_iteration ctx).static_context = m.static_context :=
  fun _ _ => ⟨rfl, rfl, rfl⟩

/-- C8 counterexample: appending a record whose sequence number (5) differs
from the current record count (0) does not fail with `InvalidRecordError` —
no such check exists — and the record is appended. -/
theorem memory_append_C8_counterexample :
    (5 : Nat) ≠ ({ history := [] } : VIGAMemory).history.length ∧
    ((({ history := [] } : VIGAMemory).add_iteration { iteration_id := 5 }).history
      = [{ iteration_id := 5 }]) :=
  ⟨by decide, by decide⟩

/-! ## The VIGA loop (`src/src/colossus_blender/viga/agent.py`)

`run_loop` is embedded with its external collaborators as oracles:
`g` is the Generator step (`generator.generate_step(task, memory, t)`),
`e` is the host execution (`skills.execute_code(ctx.code)`), and
`v` is the Verifier step (`verifier.verify_step(task, ctx)`). -/

/-- Result shape of the host's `execute` call; `errors` holds the rendered
text of the host's error payload. -/
structure ExecResult where
  status : List Char
  output : List Char
  errors : List Char
deriving DecidableEq

/-- Rendering of `str(exec_result)` (a Python dict repr); the loop only ever
stores this string, and every rendering starts with a brace, so it is
non-empty. -/
def execResultStr (r : ExecResult) : List Char :=
  ("\x7b'status': '").data ++ r.status ++ ("', 'output': '").data ++ r.output
    ++ ("', 'errors': ").data ++ r.errors ++ ("\x7d").data

/-- Python `str(x)` for an optional string (`str(None) = "None"`). -/
def pyStrOfOpt : Option (List Char) → List Char
  | none => ("None").data
  | some s => s

/-- The convergence sentinel checked by `run_loop`. -/
def sentinel : List Char := ("OBJECTIVE COMPLETE").data

/-- `"OBJECTIVE COMPLETE" in str(ctx.visual_feedback)`. -/
def sentinelHit (ctx : IterationContext) : Bool :=
  containsSub sentinel (pyStrOfOpt ctx.visual_feedback)

/-- One iteration body of `run_loop`: generate, execute, set
`execution_result`, then either record the execution error as feedback or run
the Verifier on the updated record.  (The sequential mutations of `ctx` in the
source are flattened into the two record updates.) -/
def loopStep (g : List Char → VIGAMemory → Nat → IterationContext)
    (e : Option (List Char) → ExecResult)
    (v : List Char → IterationContext → List Char)
    (task : List Char) (mem : VIGAMemory) (t : Nat) : IterationContext :=
  if (e (g task mem t).code).status = ("error").data then
    { g task mem t with
      execution_result := some (execResultStr (e (g task mem t).code)),
      visual_feedback := some (("Execution Error: ").data ++ (e (g task mem t).code).errors) }
  else
    { g task mem t with
      execution_result := some (execResultStr (e (g task mem t).code)),
      visual_feedback := some (v task { g task mem t with
        execution_result := some (execResultStr (e (g task mem t).code)) }) }

/-- The `for t in range(max_iterations)` loop with the convergence break:
append the iteration record, stop if its feedback carries the sentinel. -/
def run_loop_aux (g : List Char → VIGAMemory → Nat → IterationContext)
    (e : Option (List Char) → ExecResult)
    (v : List Char → IterationContext → List Char)
    (task : List Char) : Nat → Nat → VIGAMemory → VIGAMemory
  | 0, _, mem => mem
  | rem + 1, t, mem =>
    if sentinelHit (loopStep g e v task mem t) = true
    then mem.add_iteration (loopStep g e v task mem t)
    else run_loop_aux g e v task rem (t + 1) (mem.add_iteration (loopStep g e v task mem t))

/-- `VIGAAgent.run_loop`: fresh memory (window 3, as built in `__init__`),
task stored in `static_context`, then the bounded loop; returns the memory. -/
def run_loop (g : List Char → VIGAMemory → Nat → IterationContext)
    (e : Option (List Char) → ExecResult)
    (v : List Char → IterationContext → List Char)
    (task : List Char) (max_iterations : Nat) : VIGAMemory :=
  run_loop_aux g e v task max_iterations 0
    { history := [], window_size := 3, static_context := [(("task").data, task)] }

theorem run_loop_aux_spec (g : List Char → VIGAMemory → Nat → IterationContext)
    (e : Option (List Char) → ExecResult)
    (v : List Char → IterationContext → List Char) (task : List Char) :
    ∀ rem t mem, ∃ app,
      (run_loop_aux g e v task rem t mem).history = mem.history ++ app ∧
      app.length ≤ rem ∧
      (∀ j, j + 1 < app.length → sentinelHit (app.getD j (ctxN 0)) = false) ∧
      (app.length < rem → 0 < app.length ∧
        sentinelHit (app.getD (app.length - 1) (ctxN 0)) = true) := by
  intro rem
  induction rem with
  | zero =>
    intro t mem
    exact ⟨[], by simp [run_loop_aux], by simp,
      fun j hj => absurd hj (by simp), fun h => absurd h (by simp)⟩
  | succ rem ih =>
    intro t mem
    by_cases hs : sentinelHit (loopStep g e v task mem t) = true
    · refine ⟨[loopStep g e v task mem t], ?_, by simp, ?_, ?_⟩
      · simp [run_loop_aux, hs, VIGAMemory.add_iteration]
      · intro j hj
        simp only [List.length_singleton] at hj
        omega
      · intro _
        exact ⟨by simp, by simpa using hs⟩
    · have hs' : sentinelHit (loopStep g e v task mem t) = false := by
        simpa using hs
      obtain ⟨app', h1, h2, h3, h4⟩ := ih (t + 1) (mem.add_iteration (loopStep g e v task mem t))
      refine ⟨loopStep g e v task mem t :: app', ?_, ?_, ?_, ?_⟩
      · rw [run_loop_aux, if_neg (by simp [hs']), h1]
        simp [VIGAMemory.add_iteration]
      · simp only [List.length_cons]
        omega
      · intro j hj
        cases j with
        | zero => simpa using hs'
        | succ j' =>
          simp only [List.length_cons] at hj
          rw [List.getD_cons_succ]
          exact h3 j' (by omega)
      · intro hlt
        simp only [List.length_cons] at hlt ⊢
        have hlt' : app'.length < rem := by omega
        obtain ⟨hpos, hhit⟩ := h4 hlt'
        refine ⟨by omega, ?_⟩
        have hidx : app'.length + 1 - 1 = (app'.length - 1) + 1 := by omega
        rw [hidx, List.getD_cons_succ]
        exact hhit

/-- Oracles for the concrete convergence scenario of C1: the host always
succeeds, and the Verifier emits the sentinel on iteration index 2. -/
def exGen : List Char → VIGAMemory → Nat → IterationContext :=
  fun _ _ t => { iteration_id := t, plan := some (("plan").data), code := some (("code").data) }

def exExec : Option (List Char) → ExecResult :=
  fun _ => { status := ("success").data, output := ("ok").data, errors := ("[]").data }

def exVerify : List Char → IterationContext → List Char :=
  fun _ ctx => if ctx.iteration_id = 2 then ("OBJECTIVE COMPLETE").data
               else ("needs work").data

def exTask : List Char := ("build a cube").data

/-- C1: with max 5 iterations, a succeeding host, and a Verifier whose
feedback first carries the sentinel on iteration index 2, exactly 3 records
(iterations 0, 1, 2) are appended; in general the appended record count never
exceeds `max_iterations`, no record before the last carries the sentinel (the
loop stops at the first sentinel), and a run shorter than `max_iterations`
ends precisely on a sentinel-carrying record. -/
theorem viga_loop_convergence_C1 :
    ((run_loop exGen exExec exVerify exTask 5).history.length = 3 ∧
     (run_loop exGen exExec exVerify exTask 5).history.map
        (fun ctx => ctx.iteration_id) = [0, 1, 2]) ∧
    (∀ (g : List Char → VIGAMemory → Nat → IterationContext)
       (e : Option (List Char) → ExecResult)
       (v : List Char → IterationContext → List Char) (task : List Char) (maxI : Nat),
      (run_loop g e v task maxI).history.length ≤ maxI) ∧
    (∀ (g : List Char → VIGAMemory → Nat → IterationContext)
       (e : Option (List Char) → ExecResult)
       (v : List Char → IterationContext → List Char) (task : List Char) (maxI j : Nat),
      j + 1 < (run_loop g e v task maxI).history.length →
      sentinelHit ((run_loop g e v task maxI).history.getD j (ctxN 0)) = false) ∧
    (∀ (g : List Char → VIGAMemory → Nat → IterationContext)
       (e : Option (List Char) → ExecResult)
       (v : List Char → IterationContext → List Char) (task : List Char) (maxI : Nat),
      (run_loop g e v task maxI).history.length < maxI →
      0 < (run_loop g e v task maxI).history.length ∧
      sentinelHit ((run_loop g e v task maxI).history.getD
        ((run_loop g e v task maxI).history.length - 1) (ctxN 0)) = true) := by
  refine ⟨⟨by decide, by decide⟩, ?_, ?_, ?_⟩
  · intro g e v task maxI
    obtain ⟨app, h1, h2, _, _⟩ := run_loop_aux_spec g e v task maxI 0
      { history := [], window_size := 3, static_context := [(("task").data, task)] }
    have happ : (run_loop g e v task maxI).history = app := by
      unfold run_loop
      rw [h1]
      rfl
    rw [happ]
    exact h2
  · intro g e v task maxI j hj
    obtain ⟨app, h1, _, h3, _⟩ := run_loop_aux_spec g e v task maxI 0
      { history := [], window_size := 3, static_context := [(("task").data, task)] }
    have happ : (run_loop g e v task maxI).history = app := by
      unfold run_loop
      rw [h1]
      rfl
    rw [happ] at hj ⊢
    exact h3 j hj
  · intro g e v task maxI hlt
    obtain ⟨app, h1, _, _, h4⟩ := run_loop_aux_spec g e v task maxI 0
      { history := [], window_size := 3, static_context := [(("task").data, task)] }
    have happ : (run_loop g e v task maxI).history = app := by
      unfold run_loop
      rw [h1]
      rfl
    rw [happ] at hlt ⊢
    exact h4 hlt

theorem viga_loop_convergence_C1_witness :
    (0 + 1 < (run_loop exGen exExec exVerify exTask 5).history.length) ∧
    sentinelHit ((run_loop exGen exExec exVerify exTask 5).history.getD 0 (ctxN 0)) = false :=
  ⟨by decide,
   viga_loop_convergence_C1.2.2.1 exGen exExec exVerify exTask 5 0 (by decide)⟩

theorem loopStep_error {g : List Char → VIGAMemory → Nat → IterationContext}
    {e : Option (List Char) → ExecResult}
    {v : List Char → IterationContext → List Char} {task : List Char}
    {mem : VIGAMemory} {t : Nat}
    (hstat : (e (g task mem t).code).status = ("error").data) :
    loopStep g e v task mem t =
      { g task mem t with
        execution_result := some (execResultStr (e (g task mem t).code)),
        visual_feedback := some (("Execution Error: ").data ++ (e (g task mem t).code).errors) } := by
  unfold loopStep
  rw [if_pos hstat]

theorem execResultStr_ne_nil (r : ExecResult) : execResultStr r ≠ [] := by
  have hlit : ("\x7b'status': '").data = '\x7b' :: ("'status': '").data := by decide
  unfold execResultStr
  rw [hlit]
  simp

theorem run_loop_aux_all_error
    {g : List Char → VIGAMemory → Nat → IterationContext}
    {e : Option (List Char) → ExecResult}
    (hstat : ∀ c, (e c).status = ("error").data)
    (hsent : ∀ c, containsSub sentinel (("Execution Error: ").data ++ (e c).errors) = false)
    (v v' : List Char → IterationContext → List Char) (task : List Char) :
    ∀ rem t mem,
      run_loop_aux g e v task rem t mem = run_loop_aux g e v' task rem t mem ∧
      (run_loop_aux g e v task rem t mem).history.length = mem.history.length + rem ∧
      (∀ ctx ∈ (run_loop_aux g e v task rem t mem).history,
        ctx ∈ mem.history ∨
          (ctx.execution_result = some (execResultStr (e ctx.code)) ∧
           ctx.visual_feedback = some (("Execution Error: ").data ++ (e ctx.code).errors))) := by
  intro rem
  induction rem with
  | zero =>
    intro t mem
    exact ⟨rfl, by simp [run_loop_aux], fun ctx h => Or.inl h⟩
  | succ rem ih =>
    intro t mem
    have hE : loopStep g e v task mem t =
        { g task mem t with
          execution_result := some (execResultStr (e (g task mem t).code)),
          visual_feedback := some (("Execution Error: ").data ++ (e (g task mem t).code).errors) } :=
      loopStep_error (hstat _)
    have hEv' : loopStep g e v' task mem t =
        { g task mem t with
          execution_result := some (execResultStr (e (g task mem t).code)),
          visual_feedback := some (("Execution Error: ").data ++ (e (g task mem t).code).errors) } :=
      loopStep_error (hstat _)
    have hsame : loopStep g e v task mem t = loopStep g e v' task mem t := by
      rw [hE, hEv']
    have hsE : sentinelHit (loopStep g e v task mem t) = false := by
      rw [hE]
      exact hsent _
    have hsE' : sentinelHit (loopStep g e v' task mem t) = false := by
      rw [← hsame]
      exact hsE
    rw [run_loop_aux, if_neg (by simp [hsE]), run_loop_aux, if_neg (by simp [hsE']), ← hsame]
    obtain ⟨ihEq, ihLen, ihMem⟩ := ih (t + 1) (mem.add_iteration (loopStep g e v task mem t))
    refine ⟨ihEq, ?_, ?_⟩
    · rw [ihLen]
      simp [VIGAMemory.add_iteration]
      omega
    · intro ctx hctx
      rcases ihMem ctx hctx with hmem | hprop
      · have hmem' : ctx ∈ mem.history ∨ ctx = loopStep g e v task mem t := by
          simpa [VIGAMemory.add_iteration] using hmem
        rcases hmem' with h | h
        · exact Or.inl h
        · right
          rw [h, hE]
          exact ⟨rfl, rfl⟩
      · exact Or.inr hprop

/-- C2 (amended): when the host reports `status == "error"` on every
iteration, the Verifier is never invoked (the run is identical for any two
Verifier oracles), each record still gets appended with a non-empty
`execution_result` and the failure recorded as its feedback, and the loop does
not crash; it runs all `max_iterations` iterations provided the recorded
failure feedback does not contain the convergence sentinel. -/
theorem viga_loop_exec_failure_C2 :
    ∀ (g : List Char → VIGAMemory → Nat → IterationContext)
      (e : Option (List Char) → ExecResult)
      (v v' : List Char → IterationContext → List Char) (task : List Char) (maxI : Nat),
      (∀ c, (e c).status = ("error").data) →
      (∀ c, containsSub sentinel (("Execution Error: ").data ++ (e c).errors) = false) →
      run_loop g e v task maxI = run_loop g e v' task maxI ∧
      (run_loop g e v task maxI).history.length = maxI ∧
      (∀ ctx ∈ (run_loop g e v task maxI).history,
        ctx.execution_result = some (execResultStr (e ctx.code)) ∧
        execResultStr (e ctx.code) ≠ [] ∧
        ctx.visual_feedback = some (("Execution Error: ").data ++ (e ctx.code).errors)) := by
  intro g e v v' task maxI hstat hsent
  obtain ⟨hEq, hLen, hMem⟩ := run_loop_aux_all_error hstat hsent v v' task maxI 0
    { history := [], window_size := 3, static_context := [(("task").data, task)] }
  refine ⟨hEq, by simpa using hLen, ?_⟩
  intro ctx hctx
  rcases hMem ctx hctx with hmem | hprop
  · simp at hmem
  · exact ⟨hprop.1, execResultStr_ne_nil _, hprop.2⟩

def werExec : Option (List Char) → ExecResult :=
  fun _ => { status := ("error").data, output := [], errors := ("boom").data }

def werVerify : List Char → IterationContext → List Char :=
  fun _ _ => ("other feedback").data

theorem werExec_nosentinel :
    ∀ c, containsSub sentinel (("Execution Error: ").data ++ (werExec c).errors) = false := by
  intro c
  show containsSub sentinel (("Execution Error: ").data ++ ("boom").data) = false
  decide

theorem viga_loop_exec_failure_C2_witness :
    ((∀ c, (werExec c).status = ("error").data) ∧
     (∀ c, containsSub sentinel (("Execution Error: ").data ++ (werExec c).errors) = false)) ∧
    (run_loop exGen werExec exVerify exTask 3 = run_loop exGen werExec werVerify exTask 3 ∧
     (run_loop exGen werExec exVerify exTask 3).history.length = 3 ∧
     (∀ ctx ∈ (run_loop exGen werExec exVerify exTask 3).history,
        ctx.execution_result = some (execResultStr (werExec ctx.code)) ∧
        execResultStr (werExec ctx.code) ≠ [] ∧
        ctx.visual_feedback = some (("Execution Error: ").data ++ (werExec ctx.code).errors))) :=
  ⟨⟨fun _ => rfl, werExec_nosentinel⟩,
   viga_loop_exec_failure_C2 exGen werExec exVerify werVerify exTask 3
     (fun _ => rfl) werExec_nosentinel⟩

/-- Oracles for the C2 counterexample: the host always fails, but its error
text happens to contain the convergence sentinel. -/
def failExec : Option (List Char) → ExecResult :=
  fun _ => { status := ("error").data, output := [],
             errors := ("OBJECTIVE COMPLETE was not reached").data }

/-- C2 counterexample: with a host that always reports failure but whose error
text contains the sentinel, a run allowed 2 iterations stops after 1 appended
record — the claim that such a loop always runs all `max_iterations`
iterations is false as stated (the recorded failure feedback is subject to the
convergence check). -/
theorem viga_loop_exec_failure_C2_counterexample :
    (failExec none).status = ("error").data ∧
    (run_loop exGen failExec exVerify exTask 2).history.length = 1 ∧
    (run_loop exGen failExec exVerify exTask 2).history.length ≠ 2 :=
  ⟨rfl, by decide, by decide⟩

/-! ## Model gateway (`src/src/archive/colossus_blender/viga/modern_models.py`)

`Qwen3VL.generate_text` posts a chat request; on a 400 with non-empty images
it retries once text-only.  The HTTP provider is the oracle
`provider : ChatRequest → ProviderResponse`; `generate_text` returns its
result together with the trace of requests actually sent. -/

inductive ContentPart where
  | textPart (t : List Char)
  | imagePart (url : List Char)
deriving DecidableEq

inductive MsgContent where
  | plain (t : List Char)
  | parts (ps : List ContentPart)
deriving DecidableEq

structure ChatMessage where
  role : List Char
  content : MsgContent
deriving DecidableEq

structure ChatRequest where
  model : List Char
  messages : List ChatMessage
  temperature : ℚ
  max_tokens : Nat
deriving DecidableEq

/-- Provider response: HTTP status, raw body text (used in error messages) and
the `choices[0].message.content` field of a successful JSON body. -/
structure ProviderResponse where
  status : Nat
  body : List Char
  content : List Char
deriving DecidableEq

structure Qwen3VL where
  served_model : List Char
  temperature : ℚ
  max_tokens : Nat
deriving DecidableEq

/-- The user-message content parts: the text part followed by one image-URL
part per non-empty image payload (empty payloads are skipped). -/
def buildUserParts (user_prompt : List Char) (images : List (List Char)) : List ContentPart :=
  ContentPart.textPart user_prompt ::
    (images.filter (fun i => !i.isEmpty)).map
      (fun i => ContentPart.imagePart (("data:image/png;base64,").data ++ i))

/-- The messages of the first request: multimodal user content iff `images`
is (truthy, i.e.) non-empty. -/
def buildMessages (sys user : List Char) (images : List (List Char)) : List ChatMessage :=
  if images.isEmpty then
    [⟨("system").data, MsgContent.plain sys⟩, ⟨("user").data, MsgContent.plain user⟩]
  else
    [⟨("system").data, MsgContent.plain sys⟩,
     ⟨("user").data, MsgContent.parts (buildUserParts user images)⟩]

def mkChatRequest (q : Qwen3VL) (sys user : List Char) (images : List (List Char)) :
    ChatRequest :=
  { model := q.served_model, messages := buildMessages sys user images,
    temperature := q.temperature, max_tokens := q.max_tokens }

/-- The retry request: same payload with `messages` replaced by the plain
text-only pair. -/
def mkTextRequest (q : Qwen3VL) (sys user : List Char) : ChatRequest :=
  { model := q.served_model,
    messages := [⟨("system").data, MsgContent.plain sys⟩,
                 ⟨("user").data, MsgContent.plain user⟩],
    temperature := q.temperature, max_tokens := q.max_tokens }

/-- `RuntimeError(f"Qwen3-VL request failed (\x7bstatus\x7d): \x7btext\x7d")`. -/
def requestFailMsg (r : ProviderResponse) : List Char :=
  ("Qwen3-VL request failed (").data ++ (Nat.repr r.status).data ++ ("): ").data ++ r.body

/-- `Qwen3VL.generate_text`: post once; on `400` with non-empty `images`,
post exactly one text-only retry (raising on its non-200); otherwise raise on
non-200, else return the content.  The second component is the request
trace. -/
def Qwen3VL.generate_text (q : Qwen3VL) (provider : ChatRequest → ProviderResponse)
    (system_prompt user_prompt : List Char) (images : List (List Char)) :
    Except (List Char) (List Char) × List ChatRequest :=
  if (provider (mkChatRequest q system_prompt user_prompt images)).status = 400 ∧ images ≠ [] then
    if (provider (mkTextRequest q system_prompt user_prompt)).status ≠ 200 then
      (Except.error (requestFailMsg (provider (mkTextRequest q system_prompt user_prompt))),
       [mkChatRequest q system_prompt user_prompt images, mkTextRequest q system_prompt user_prompt])
    else
      (Except.ok (provider (mkTextRequest q system_prompt user_prompt)).content,
       [mkChatRequest q system_prompt user_prompt images, mkTextRequest q system_prompt user_prompt])
  else if (provider (mkChatRequest q system_prompt user_prompt images)).status ≠ 200 then
    (Except.error (requestFailMsg (provider (mkChatRequest q system_prompt user_prompt images))),
     [mkChatRequest q system_prompt user_prompt images])
  else
    (Except.ok (provider (mkChatRequest q system_prompt user_prompt images)).content,
     [mkChatRequest q system_prompt user_prompt images])

/-- C3: on the multimodal-unsupported signal (status 400) with non-empty
images, exactly one retry is sent, with text-only messages (images dropped
entirely); the retry's failure surfaces as an error with no further request;
any other non-success fails with an error after a single request; and with an
empty images list exactly one request is ever sent. -/
theorem gateway_multimodal_retry_C3 :
    (∀ (q : Qwen3VL) (provider : ChatRequest → ProviderResponse)
       (sys user : List Char) (images : List (List Char)),
      images ≠ [] →
      (provider (mkChatRequest q sys user images)).status = 400 →
      (q.generate_text provider sys user images).2
          = [mkChatRequest q sys user images, mkTextRequest q sys user] ∧
      (mkTextRequest q sys user).messages
          = [⟨("system").data, MsgContent.plain sys⟩,
             ⟨("user").data, MsgContent.plain user⟩] ∧
      (q.generate_text provider sys user images).1
          = (if (provider (mkTextRequest q sys user)).status ≠ 200
             then Except.error (requestFailMsg (provider (mkTextRequest q sys user)))
             else Except.ok (provider (mkTextRequest q sys user)).content)) ∧
    (∀ (q : Qwen3VL) (provider : ChatRequest → ProviderResponse)
       (sys user : List Char) (images : List (List Char)),
      ((provider (mkChatRequest q sys user images)).status ≠ 400 ∨ images = []) →
      (q.generate_text provider sys user images).2 = [mkChatRequest q sys user images] ∧
      ((provider (mkChatRequest q sys user images)).status ≠ 200 →
        (q.generate_text provider sys user images).1
          = Except.error (requestFailMsg (provider (mkChatRequest q sys user images))))) ∧
    (∀ (q : Qwen3VL) (provider : ChatRequest → ProviderResponse) (sys user : List Char),
      (q.generate_text provider sys user []).2.length = 1) := by
  refine ⟨?_, ?_, ?_⟩
  · intro q provider sys user images himg h400
    have hcond : (provider (mkChatRequest q sys user images)).status = 400 ∧ images ≠ [] :=
      ⟨h400, himg⟩
    unfold Qwen3VL.generate_text
    rw [if_pos hcond]
    by_cases h2 : (provider (mkTextRequest q sys user)).status ≠ 200
    · rw [if_pos h2, if_pos h2]
      exact ⟨rfl, rfl, rfl⟩
    · rw [if_neg h2, if_neg h2]
      exact ⟨rfl, rfl, rfl⟩
  · intro q provider sys user images hno
    have hcond : ¬ ((provider (mkChatRequest q sys user images)).status = 400 ∧ images ≠ []) := by
      rcases hno with h | h
      · exact fun hc => h hc.1
      · exact fun hc => hc.2 h
    unfold Qwen3VL.generate_text
    rw [if_neg hcond]
    by_cases h2 : (provider (mkChatRequest q sys user images)).status ≠ 200
    · rw [if_pos h2]
      exact ⟨rfl, fun _ => rfl⟩
    · rw [if_neg h2]
      exact ⟨rfl, fun hc => absurd hc h2⟩
  · intro q provider sys user
    have hcond : ¬ ((provider (mkChatRequest q sys user [])).status = 400 ∧ ([] : List (List Char)) ≠ []) :=
      fun hc => hc.2 rfl
    unfold Qwen3VL.generate_text
    rw [if_neg hcond]
    by_cases h2 : (provider (mkChatRequest q sys user [])).status ≠ 200
    · rw [if_pos h2]
      rfl
    · rw [if_neg h2]
      rfl

def exQwen : Qwen3VL := { served_model := ("qwen").data, temperature := 3/10, max_tokens := 2048 }

/-- A deterministic provider for the witness: rejects multimodal message
shapes with 400, accepts text-only ones. -/
def exProvider : ChatRequest → ProviderResponse := fun req =>
  if req.messages = (mkTextRequest exQwen (("s").data) (("u").data)).messages
  then { status := 200, body := [], content := ("ok").data }
  else { status := 400, body := ("unsupported multimodal").data, content := [] }

theorem gateway_multimodal_retry_C3_witness :
    (([("img").data] : List (List Char)) ≠ [] ∧
      (exProvider (mkChatRequest exQwen (("s").data) (("u").data) [("img").data])).status = 400) ∧
    ((exQwen.generate_text exProvider (("s").data) (("u").data) [("img").data]).2
        = [mkChatRequest exQwen (("s").data) (("u").data) [("img").data],
           mkTextRequest exQwen (("s").data) (("u").data)] ∧
      (mkTextRequest exQwen (("s").data) (("u").data)).messages
        = [⟨("system").data, MsgContent.plain (("s").data)⟩,
           ⟨("user").data, MsgContent.plain (("u").data)⟩] ∧
      (exQwen.generate_text exProvider (("s").data) (("u").data) [("img").data]).1
        = (if (exProvider (mkTextRequest exQwen (("s").data) (("u").data))).status ≠ 200
           then Except.error (requestFailMsg (exProvider (mkTextRequest exQwen (("s").data) (("u").data))))
           else Except.ok (exProvider (mkTextRequest exQwen (("s").data) (("u").data))).content)) :=
  ⟨⟨by decide, by decide⟩,
   gateway_multimodal_retry_C3.1 exQwen exProvider (("s").data) (("u").data)
     [("img").data] (by decide) (by decide)⟩

/-! ## Evaluator pipeline (`src/src/colossus_blender/orchestrator.py`)

`EvaluatorAgent.evaluate` threads a `WorkflowState` value; the vision-model
call `analyze_scene` is the oracle, passed as its `Except` outcome.  Scores
are modelled as rationals (the Python floats are only compared, never
computed with, in the embedded fragment). -/

/-- The fields of the `eval_data` dict read by `evaluate`
(`.get("overall_score", 0.0)` and `.get("is_satisfactory", False)`). -/
structure EvalData where
  overall_score : Option ℚ := none
  is_satisfactory : Option Bool := none
deriving DecidableEq

inductive VisualFeedback where
  | initial
  | evalData (d : EvalData)
  | errorEntry (msg : List Char)
deriving DecidableEq

/-- The `WorkflowState` fields touched by the Evaluator stage (the other
dataclass fields — planning, design and refinement outputs — are carried
unchanged and are omitted). -/
structure WorkflowState where
  user_intent : List Char
  current_iteration : Nat := 0
  max_iterations : Nat := 3
  satisfaction_threshold : ℚ := 3/4
  blender_code : List Char := []
  screenshot_base64 : Option (List Char) := none
  quality_score : ℚ := 0
  visual_feedback : VisualFeedback := VisualFeedback.initial
  is_satisfied : Bool := false
deriving DecidableEq

/-- Python truthiness test `if not state.screenshot_base64` (`None` or `""`). -/
def pyFalsyScreenshot : Option (List Char) → Bool
  | none => true
  | some s => s.isEmpty

/-- `EvaluatorAgent.evaluate`: no-screenshot guard, then on a successful
vision call set `quality_score` from `overall_score` (default 0) and
`is_satisfied := quality_score >= threshold or is_satisfactory`; on a vision
failure degrade to the neutral 0.5 score. -/
def EvaluatorAgent.evaluate (state : WorkflowState)
    (analyze : Except (List Char) EvalData) : WorkflowState :=
  if pyFalsyScreenshot state.screenshot_base64 then
    { state with quality_score := 0,
                 visual_feedback :=
                   VisualFeedback.errorEntry (("No screenshot available for evaluation").data) }
  else
    match analyze with
    | Except.ok d =>
        { state with
            quality_score := d.overall_score.getD 0,
            visual_feedback := VisualFeedback.evalData d,
            is_satisfied :=
              decide (d.overall_score.getD 0 ≥ state.satisfaction_threshold)
                || d.is_satisfactory.getD false }
    | Except.error msg =>
        { state with
            quality_score := 1/2,
            visual_feedback :=
              VisualFeedback.errorEntry (("Vision model evaluation failed: ").data ++ msg) }

def exEvalState : WorkflowState :=
  { user_intent := ("battleship").data, screenshot_base64 := some (("imgdata").data) }

theorem evaluate_ok_is_satisfied (st : WorkflowState) (d : EvalData)
    (h : pyFalsyScreenshot st.screenshot_base64 = false) :
    (EvaluatorAgent.evaluate st (Except.ok d)).is_satisfied
      = (decide (d.overall_score.getD 0 ≥ st.satisfaction_threshold)
          || d.is_satisfactory.getD false) := by
  unfold EvaluatorAgent.evaluate
  rw [if_neg (by simp [h])]

/-- C9: on every successful evaluation the satisfaction flag is set to true
exactly when the overall score reaches the threshold OR the model's explicit
satisfactory flag is true (a logical OR); in particular 0.80 at threshold 0.75
is satisfactory even with the explicit flag false, the explicit flag alone
suffices below threshold, and with both conditions false the flag is false. -/
theorem evaluator_satisfaction_C9 :
    (∀ (st : WorkflowState) (d : EvalData),
      pyFalsyScreenshot st.screenshot_base64 = false →
      (EvaluatorAgent.evaluate st (Except.ok d)).is_satisfied
        = (decide (d.overall_score.getD 0 ≥ st.satisfaction_threshold)
            || d.is_satisfactory.getD false)) ∧
    ((EvaluatorAgent.evaluate exEvalState
        (Except.ok { overall_score := some (4/5), is_satisfactory := some false })).is_satisfied
      = true) ∧
    ((EvaluatorAgent.evaluate exEvalState
        (Except.ok { overall_score := some (1/2), is_satisfactory := some true })).is_satisfied
      = true) ∧
    ((EvaluatorAgent.evaluate exEvalState
        (Except.ok { overall_score := some (1/2), is_satisfactory := some false })).is_satisfied
      = false) := by
  refine ⟨fun st d h => evaluate_ok_is_satisfied st d h, ?_, ?_, ?_⟩
  · rw [evaluate_ok_is_satisfied exEvalState _ (by decide)]
    simp only [Option.getD_some, Bool.or_false, decide_eq_true_eq]
    show (4 : ℚ)/5 ≥ 3/4
    norm_num
  · rw [evaluate_ok_is_satisfied exEvalState _ (by decide)]
    simp
  · rw [evaluate_ok_is_satisfied exEvalState _ (by decide)]
    simp only [Option.getD_some, Bool.or_false, decide_eq_false_iff_not]
    show ¬ ((1 : ℚ)/2 ≥ 3/4)
    norm_num

theorem evaluator_satisfaction_C9_witness :
    (pyFalsyScreenshot exEvalState.screenshot_base64 = false) ∧
    ((EvaluatorAgent.evaluate exEvalState
        (Except.ok { overall_score := some (4/5), is_satisfactory := some false })).is_satisfied
      = (decide (((some (4/5) : Option ℚ)).getD 0 ≥ exEvalState.satisfaction_threshold)
          || ((some false : Option Bool)).getD false)) :=
  ⟨by decide,
   evaluator_satisfaction_C9.1 exEvalState
     { overall_score := some (4/5), is_satisfactory := some false } (by decide)⟩

end ColossusBlender
